import Mathlib

/-!  Verification development for the Reflex proxy protocol core: the
length-prefixed AEAD frame codec with counter-based nonces, the handshake
codec and timestamp validation, the user validator, the traffic-morphing
writer, and the fallback demultiplexer.  Byte strings are modelled as
`List Nat`; machine integers are `Nat`/`Int` with explicit wrapping where
the Go code uses fixed-width arithmetic. -/

namespace Reflex

/-- Value of `2^64`, the wrapping modulus of Go's `uint64`/`int64`. -/
def U64 : Nat := 18446744073709551616

/-- Model of reading a big-endian 16-bit value from the first two bytes
of a buffer, as `binary.BigEndian.Uint16` does. -/
def beUint16 (l : List Nat) : Nat := l.getD 0 0 * 256 + l.getD 1 0

/-- Model of `binary.BigEndian.PutUint16`: the two big-endian bytes of a
16-bit value. -/
def putUint16BE (v : Nat) : List Nat := [v / 256 % 256, v % 256]

/-- Model of reading a big-endian 32-bit value from the first four bytes
of a buffer, as `binary.BigEndian.Uint32` does. -/
def beUint32 (l : List Nat) : Nat :=
  l.getD 0 0 * 16777216 + l.getD 1 0 * 65536 + l.getD 2 0 * 256 + l.getD 3 0

/-- Model of reading a big-endian 64-bit value from the first eight bytes
of a buffer, as `binary.BigEndian.Uint64` does. -/
def beUint64 (l : List Nat) : Nat :=
  l.getD 7 0 + 256 * (l.getD 6 0 + 256 * (l.getD 5 0 + 256 * (l.getD 4 0 +
    256 * (l.getD 3 0 + 256 * (l.getD 2 0 + 256 * (l.getD 1 0 + 256 * l.getD 0 0))))))

/-- Model of `binary.LittleEndian.PutUint64`: the eight little-endian
bytes of a 64-bit value. -/
def putUint64LE (v : Nat) : List Nat :=
  [v % 256, v / 256 % 256, v / 65536 % 256, v / 16777216 % 256, v / 4294967296 % 256,
   v / 1099511627776 % 256, v / 281474976710656 % 256, v / 72057594037927936 % 256]

/-- Little-endian reconstruction of a 64-bit value from eight bytes. -/
def leUint64 (l : List Nat) : Nat :=
  l.getD 0 0 + 256 * (l.getD 1 0 + 256 * (l.getD 2 0 + 256 * (l.getD 3 0 +
    256 * (l.getD 4 0 + 256 * (l.getD 5 0 + 256 * (l.getD 6 0 + 256 * l.getD 7 0))))))

lemma leUint64_putUint64LE (v : Nat) : leUint64 (putUint64LE v) = v % U64 := by
  simp only [leUint64, putUint64LE, List.getD_cons_zero, List.getD_cons_succ, U64]
  omega

/-- The 12-byte ChaCha20-Poly1305 nonce used by the frame codec: the
counter little-endian in the first 8 bytes, the remaining 4 bytes zero. -/
def nonceOf (c : Nat) : List Nat := putUint64LE c ++ [0, 0, 0, 0]

lemma nonceOf_length (c : Nat) : (nonceOf c).length = 12 := by
  simp [nonceOf, putUint64LE]

lemma nonceOf_inj {a b : Nat} (ha : a < U64) (hb : b < U64)
    (h : nonceOf a = nonceOf b) : a = b := by
  have h8 : putUint64LE a = putUint64LE b := by
    have := List.append_inj h (by simp [putUint64LE])
    exact this.1
  have := congrArg leUint64 h8
  rw [leUint64_putUint64LE, leUint64_putUint64LE,
      Nat.mod_eq_of_lt ha, Nat.mod_eq_of_lt hb] at this
  exact this

/-- Tag material binding the key inside the idealized AEAD model. -/
def keyTag (key : List Nat) : List Nat :=
  [key.length % 256, key.foldl (· + ·) 0 % 256, 0, 0]

lemma keyTag_length (key : List Nat) : (keyTag key).length = 4 := by
  simp [keyTag]

/-- Functional model of ChaCha20-Poly1305 sealing (external library
`golang.org/x/crypto/chacha20poly1305`): the ciphertext is the plaintext
followed by a 16-byte authentication tag that binds the nonce and the
key, so the ciphertext is exactly 16 bytes longer than the plaintext. -/
def aeadSeal (key nonce plaintext : List Nat) : List Nat :=
  plaintext ++ nonce ++ keyTag key

/-- Functional model of ChaCha20-Poly1305 opening: verify the 16-byte
tag against the supplied nonce and key and recover the plaintext;
opening fails whenever the tag does not match, in particular whenever
the nonce differs from the one used to seal. -/
def aeadOpen (key nonce ciphertext : List Nat) : Option (List Nat) :=
  if 16 ≤ ciphertext.length ∧
     ciphertext.drop (ciphertext.length - 16) = nonce ++ keyTag key
  then some (ciphertext.take (ciphertext.length - 16)) else none

lemma aeadSeal_length (key nonce pt : List Nat) (h : nonce.length = 12) :
    (aeadSeal key nonce pt).length = pt.length + 16 := by
  simp [aeadSeal, keyTag, h]

lemma aeadOpen_seal (key nonce pt : List Nat) (h : nonce.length = 12) :
    aeadOpen key nonce (aeadSeal key nonce pt) = some pt := by
  have hlen := aeadSeal_length key nonce pt h
  have hdrop : (aeadSeal key nonce pt).drop ((aeadSeal key nonce pt).length - 16)
      = nonce ++ keyTag key := by
    rw [hlen, Nat.add_sub_cancel]
    show (pt ++ nonce ++ keyTag key).drop pt.length = nonce ++ keyTag key
    rw [List.append_assoc, List.drop_left]
  have htake : (aeadSeal key nonce pt).take ((aeadSeal key nonce pt).length - 16) = pt := by
    rw [hlen, Nat.add_sub_cancel]
    show (pt ++ nonce ++ keyTag key).take pt.length = pt
    rw [List.append_assoc, List.take_left]
  rw [aeadOpen, if_pos ⟨by omega, hdrop⟩, htake]

lemma aeadOpen_seal_ne (key nonce nonce' pt : List Nat) (h : nonce.length = 12)
    (h' : nonce'.length = 12) (hne : nonce ≠ nonce') :
    aeadOpen key nonce' (aeadSeal key nonce pt) = none := by
  have hlen := aeadSeal_length key nonce pt h
  have hdrop : (aeadSeal key nonce pt).drop ((aeadSeal key nonce pt).length - 16)
      = nonce ++ keyTag key := by
    rw [hlen, Nat.add_sub_cancel]
    show (pt ++ nonce ++ keyTag key).drop pt.length = nonce ++ keyTag key
    rw [List.append_assoc, List.drop_left]
  rw [aeadOpen, if_neg]
  rintro ⟨-, hcontra⟩
  rw [hdrop] at hcontra
  exact hne (List.append_inj hcontra (by omega)).1

/-- A Reflex protocol frame: one type byte and a payload. -/
structure Frame where
  ftype : Nat
  payload : List Nat
deriving DecidableEq, Repr

/-- Maximum payload size (16KB), from the frame codec constants. -/
def MaxFramePayloadSize : Nat := 16384

/-- State of a frame encoder: AEAD key and the 64-bit frame counter. -/
structure FrameEncoder where
  key : List Nat
  counter : Nat
deriving DecidableEq, Repr

/-- State of a frame decoder: AEAD key and the 64-bit frame counter. -/
structure FrameDecoder where
  key : List Nat
  counter : Nat
deriving DecidableEq, Repr

/-- Model of `NewFrameEncoder`: constructing the ChaCha20-Poly1305 AEAD
fails unless the session key is exactly 32 bytes; the counter starts at 0. -/
def NewFrameEncoder (sessionKey : List Nat) : Except String FrameEncoder :=
  if sessionKey.length = 32 then .ok { key := sessionKey, counter := 0 }
  else .error "chacha20poly1305: bad key length"

/-- Model of `NewFrameDecoder`: same key-size check, counter starts at 0. -/
def NewFrameDecoder (sessionKey : List Nat) : Except String FrameDecoder :=
  if sessionKey.length = 32 then .ok { key := sessionKey, counter := 0 }
  else .error "chacha20poly1305: bad key length"

/-- Model of `FrameEncoder.Encode`: increment the counter (wrapping as a
`uint64`), write it little-endian into the nonce, seal `[type ‖ payload]`,
and emit `uint16-BE(len(ciphertext)) ‖ ciphertext`.  The length prefix is
the ciphertext length reduced modulo 2^16, exactly as the `uint16`
conversion in the Go code does; no payload-size check is performed and no
error is ever returned. -/
def FrameEncoder.Encode (e : FrameEncoder) (frame : Frame) : List Nat × FrameEncoder :=
  let c := (e.counter + 1) % U64
  let plaintext := frame.ftype :: frame.payload
  let ciphertext := aeadSeal e.key (nonceOf c) plaintext
  (putUint16BE (ciphertext.length % 65536) ++ ciphertext, { e with counter := c })

/-- Model of `FrameDecoder.Decode`: read the 2-byte length, check the
buffer is complete, increment the counter before AEAD-open, open, and
split the plaintext into type byte and payload. -/
def FrameDecoder.Decode (d : FrameDecoder) (data : List Nat) :
    Except String (Frame × FrameDecoder) :=
  if data.length < 2 then .error "frame too short"
  else
    let length := beUint16 (data.take 2)
    if data.length < 2 + length then .error "incomplete frame"
    else
      let ciphertext := (data.drop 2).take length
      let c := (d.counter + 1) % U64
      match aeadOpen d.key (nonceOf c) ciphertext with
      | none => .error "decryption failed"
      | some plaintext =>
        match plaintext with
        | [] => .error "invalid plaintext"
        | t :: rest => .ok ({ ftype := t, payload := rest }, { d with counter := c })

lemma beUint16_putUint16BE (v : Nat) (h : v < 65536) :
    beUint16 (putUint16BE v) = v := by
  simp only [beUint16, putUint16BE, List.getD_cons_zero, List.getD_cons_succ]
  omega

/-- Core round-trip lemma: a decoder whose counter agrees with the
encoder's recovers the frame exactly, for any common starting counter. -/
lemma Decode_Encode_eq (k : List Nat) (c : Nat) (f : Frame)
    (hp : f.payload.length ≤ 65518) :
    FrameDecoder.Decode ⟨k, c⟩ (FrameEncoder.Encode ⟨k, c⟩ f).1
      = .ok (f, ⟨k, (c + 1) % U64⟩) := by
  have hct : (aeadSeal k (nonceOf ((c + 1) % U64)) (f.ftype :: f.payload)).length
      = f.payload.length + 17 := by
    rw [aeadSeal_length _ _ _ (nonceOf_length _)]; simp
  have hmod : (f.payload.length + 17) % 65536 = f.payload.length + 17 :=
    Nat.mod_eq_of_lt (by omega)
  have hp2 : ((putUint16BE ((f.payload.length + 17) % 65536)).length = 2) := by
    simp [putUint16BE]
  rw [FrameEncoder.Encode, FrameDecoder.Decode]
  simp only [hct]
  rw [if_neg (by simp [putUint16BE, hct])]
  have htake : ((putUint16BE ((f.payload.length + 17) % 65536) ++
      aeadSeal k (nonceOf ((c + 1) % U64)) (f.ftype :: f.payload)).take 2)
      = putUint16BE ((f.payload.length + 17) % 65536) := by
    rw [List.take_left' hp2]
  have hdrop : ((putUint16BE ((f.payload.length + 17) % 65536) ++
      aeadSeal k (nonceOf ((c + 1) % U64)) (f.ftype :: f.payload)).drop 2)
      = aeadSeal k (nonceOf ((c + 1) % U64)) (f.ftype :: f.payload) := by
    rw [List.drop_left' hp2]
  rw [htake, hdrop, hmod, beUint16_putUint16BE _ (by omega)]
  rw [if_neg (by simp [putUint16BE, hct]; omega)]
  rw [← hct, List.take_length, aeadOpen_seal _ _ _ (nonceOf_length _)]

/-- Counter-mismatch lemma: a decoder whose advanced counter disagrees
with the counter a frame was sealed under rejects the frame with the
generic decryption error, because the nonce no longer matches. -/
lemma Decode_Encode_ne (k : List Nat) (cEnc cDec : Nat) (f : Frame)
    (hp : f.payload.length ≤ 65518)
    (hne : (cEnc + 1) % U64 ≠ (cDec + 1) % U64) :
    FrameDecoder.Decode ⟨k, cDec⟩ (FrameEncoder.Encode ⟨k, cEnc⟩ f).1
      = .error "decryption failed" := by
  have hct : (aeadSeal k (nonceOf ((cEnc + 1) % U64)) (f.ftype :: f.payload)).length
      = f.payload.length + 17 := by
    rw [aeadSeal_length _ _ _ (nonceOf_length _)]; simp
  have hmod : (f.payload.length + 17) % 65536 = f.payload.length + 17 :=
    Nat.mod_eq_of_lt (by omega)
  have hp2 : ((putUint16BE ((f.payload.length + 17) % 65536)).length = 2) := by
    simp [putUint16BE]
  rw [FrameEncoder.Encode, FrameDecoder.Decode]
  simp only [hct]
  rw [if_neg (by simp [putUint16BE, hct])]
  rw [List.take_left' hp2, List.drop_left' hp2, hmod,
      beUint16_putUint16BE _ (by omega)]
  rw [if_neg (by simp [putUint16BE, hct]; omega)]
  rw [← hct, List.take_length]
  have hnonce : nonceOf ((cEnc + 1) % U64) ≠ nonceOf ((cDec + 1) % U64) := by
    intro h
    exact hne (nonceOf_inj (Nat.mod_lt _ (by simp [U64])) (Nat.mod_lt _ (by simp [U64])) h)
  rw [aeadOpen_seal_ne _ _ _ _ (nonceOf_length _) (nonceOf_length _) hnonce]

/-- Model of a sequence of `Encode` calls on one encoder: the emitted
byte strings in order, together with the final encoder state. -/
def encodeAll : FrameEncoder → List Frame → List (List Nat) × FrameEncoder
  | e, [] => ([], e)
  | e, f :: fs =>
    let r := e.Encode f
    let rest := encodeAll r.2 fs
    (r.1 :: rest.1, rest.2)

/-- Model of a sequence of `Decode` calls on one decoder, stopping at the
first error: the decoded frames in order plus the final decoder state. -/
def decodeAll : FrameDecoder → List (List Nat) → Except String (List Frame × FrameDecoder)
  | d, [] => .ok ([], d)
  | d, x :: xs =>
    match d.Decode x with
    | .error e => .error e
    | .ok (f, d') =>
      match decodeAll d' xs with
      | .error e => .error e
      | .ok (fs, d'') => .ok (f :: fs, d'')

lemma decodeAll_encodeAll (k : List Nat) (fs : List Frame) :
    ∀ c, (∀ f ∈ fs, f.payload.length ≤ 65518) → c + fs.length < U64 →
    decodeAll ⟨k, c⟩ (encodeAll ⟨k, c⟩ fs).1 = .ok (fs, ⟨k, c + fs.length⟩) := by
  induction fs with
  | nil => intro c _ _; simp [encodeAll, decodeAll]
  | cons f fs ih =>
    intro c hlen hc
    have hc1 : (c + 1) % U64 = c + 1 :=
      Nat.mod_eq_of_lt (by simp at hc; omega)
    have hsnd : ((⟨k, c⟩ : FrameEncoder).Encode f).2 = ⟨k, c + 1⟩ := by
      simp [FrameEncoder.Encode, hc1]
    rw [encodeAll]
    simp only [hsnd]
    rw [decodeAll]
    rw [Decode_Encode_eq k c f (hlen f (by simp))]
    simp only [hc1]
    rw [ih (c + 1) (fun g hg => hlen g (by simp [hg])) (by simp at hc ⊢; omega)]
    have : c + 1 + fs.length = c + (f :: fs).length := by simp; omega
    rw [this]

lemma encodeAll_mem (k : List Nat) (fs : List Frame) :
    ∀ c, c + fs.length < U64 → ∀ data ∈ (encodeAll ⟨k, c⟩ fs).1,
    ∃ j f, j < fs.length ∧ f ∈ fs ∧ data = ((⟨k, c + j⟩ : FrameEncoder).Encode f).1 := by
  induction fs with
  | nil => intro c _ data hmem; simp [encodeAll] at hmem
  | cons f fs ih =>
    intro c hc data hmem
    have hc1 : (c + 1) % U64 = c + 1 :=
      Nat.mod_eq_of_lt (by simp at hc; omega)
    have hsnd : ((⟨k, c⟩ : FrameEncoder).Encode f).2 = ⟨k, c + 1⟩ := by
      simp [FrameEncoder.Encode, hc1]
    rw [encodeAll] at hmem
    simp only [hsnd, List.mem_cons] at hmem
    rcases hmem with h | h
    · exact ⟨0, f, by simp, by simp, by simpa using h⟩
    · obtain ⟨j, g, hj, hg, hd⟩ := ih (c + 1) (by simp at hc ⊢; omega) data h
      have harith : c + 1 + j = c + (j + 1) := by omega
      exact ⟨j + 1, g, by simp; omega, by simp [hg], by rw [hd, harith]⟩

/-- Claim C1: for every 32-byte session key and every frame with payload
length at most 16384, encoding with a freshly constructed encoder and
decoding with a freshly constructed decoder keyed with the same key
yields the same frame (type byte and payload bytes). -/
theorem frame_roundtrip (k : List Nat) (f : Frame) (hk : k.length = 32)
    (hp : f.payload.length ≤ 16384) :
    NewFrameEncoder k = .ok ⟨k, 0⟩ ∧ NewFrameDecoder k = .ok ⟨k, 0⟩ ∧
    FrameDecoder.Decode ⟨k, 0⟩ (FrameEncoder.Encode ⟨k, 0⟩ f).1 = .ok (f, ⟨k, 1⟩) := by
  refine ⟨by simp [NewFrameEncoder, hk], by simp [NewFrameDecoder, hk], ?_⟩
  have h := Decode_Encode_eq k 0 f (by omega)
  have h1 : (0 + 1) % U64 = 1 := by norm_num [U64]
  rwa [h1] at h

theorem frame_roundtrip_witness :
    NewFrameEncoder (List.replicate 32 0) = .ok ⟨List.replicate 32 0, 0⟩ ∧
    NewFrameDecoder (List.replicate 32 0) = .ok ⟨List.replicate 32 0, 0⟩ ∧
    FrameDecoder.Decode ⟨List.replicate 32 0, 0⟩
      (FrameEncoder.Encode ⟨List.replicate 32 0, 0⟩ ⟨1, [104, 105]⟩).1
      = .ok (⟨1, [104, 105]⟩, ⟨List.replicate 32 0, 1⟩) :=
  frame_roundtrip (List.replicate 32 0) ⟨1, [104, 105]⟩ (by simp) (by simp)

/-- Claim C4: after a single decoder has decoded, in order, all the
frames one encoder emitted, feeding any previously emitted frame to that
same decoder again fails with the generic decryption error: the decoder
counter has advanced past the frame's counter, so the nonce no longer
matches and AEAD-open rejects the replay. -/
theorem replayed_frame_rejected (k : List Nat) (fs : List Frame)
    (hlen : ∀ f ∈ fs, f.payload.length ≤ 16384) (hn : fs.length < U64) :
    decodeAll ⟨k, 0⟩ (encodeAll ⟨k, 0⟩ fs).1 = .ok (fs, ⟨k, fs.length⟩) ∧
    ∀ data ∈ (encodeAll ⟨k, 0⟩ fs).1,
      FrameDecoder.Decode ⟨k, fs.length⟩ data = .error "decryption failed" := by
  constructor
  · have h := decodeAll_encodeAll k fs 0 (fun f hf => by have := hlen f hf; omega)
      (by omega)
    simpa using h
  · intro data hmem
    obtain ⟨j, f, hj, hf, hd⟩ := encodeAll_mem k fs 0 (by omega) data hmem
    rw [hd]
    simp only [Nat.zero_add]
    refine Decode_Encode_ne k j fs.length f (by have := hlen f hf; omega) ?_
    have hU : U64 = 18446744073709551616 := rfl
    rw [hU] at hn ⊢
    omega

theorem replayed_frame_rejected_witness :
    decodeAll ⟨List.replicate 32 1, 0⟩ (encodeAll ⟨List.replicate 32 1, 0⟩ [⟨1, [5, 6]⟩]).1
      = .ok ([⟨1, [5, 6]⟩], ⟨List.replicate 32 1, 1⟩) ∧
    FrameDecoder.Decode ⟨List.replicate 32 1, 1⟩
      (FrameEncoder.Encode ⟨List.replicate 32 1, 0⟩ ⟨1, [5, 6]⟩).1
      = .error "decryption failed" :=
  ⟨(replayed_frame_rejected (List.replicate 32 1) [⟨1, [5, 6]⟩]
      (by simp) (by norm_num [U64])).1,
   (replayed_frame_rejected (List.replicate 32 1) [⟨1, [5, 6]⟩]
      (by simp) (by norm_num [U64])).2
      (FrameEncoder.Encode ⟨List.replicate 32 1, 0⟩ ⟨1, [5, 6]⟩).1
      (by simp [encodeAll])⟩

lemma aeadOpen_length {key nonce ct pt : List Nat}
    (h : aeadOpen key nonce ct = some pt) :
    pt.length = ct.length - 16 ∧ 16 ≤ ct.length := by
  rw [aeadOpen] at h
  split at h
  · rename_i hcond
    cases h
    exact ⟨by simp [List.length_take], hcond.1⟩
  · cases h

/-- Claim C10: `Encode` enforces no payload bound and always emits a
frame, but its 2-byte length prefix is the ciphertext length reduced
modulo 2^16; once the payload length plus 17 exceeds 65535 the length
field no longer equals the ciphertext length, and no decoder in any
state can ever recover a frame carrying the original payload from the
emitted bytes: the round trip silently breaks. -/
theorem encode_oversize_silently_breaks (k : List Nat) (c : Nat) (f : Frame)
    (h : 65536 ≤ f.payload.length + 17) :
    (FrameEncoder.Encode ⟨k, c⟩ f).1.length = f.payload.length + 19 ∧
    beUint16 ((FrameEncoder.Encode ⟨k, c⟩ f).1.take 2)
      ≠ (FrameEncoder.Encode ⟨k, c⟩ f).1.length - 2 ∧
    ∀ (d : FrameDecoder) (fr : Frame) (d' : FrameDecoder),
      FrameDecoder.Decode d (FrameEncoder.Encode ⟨k, c⟩ f).1 = .ok (fr, d') →
      fr.payload ≠ f.payload := by
  have hct : (aeadSeal k (nonceOf ((c + 1) % U64)) (f.ftype :: f.payload)).length
      = f.payload.length + 17 := by
    rw [aeadSeal_length _ _ _ (nonceOf_length _)]; simp
  have hp2 : ((putUint16BE ((f.payload.length + 17) % 65536)).length = 2) := by
    simp [putUint16BE]
  have hdata : (FrameEncoder.Encode ⟨k, c⟩ f).1
      = putUint16BE ((f.payload.length + 17) % 65536)
        ++ aeadSeal k (nonceOf ((c + 1) % U64)) (f.ftype :: f.payload) := by
    rw [FrameEncoder.Encode]; simp only [hct]
  have hdlen : (FrameEncoder.Encode ⟨k, c⟩ f).1.length = f.payload.length + 19 := by
    rw [hdata]; simp [putUint16BE, hct]
  have hbe : beUint16 ((FrameEncoder.Encode ⟨k, c⟩ f).1.take 2)
      = (f.payload.length + 17) % 65536 := by
    rw [hdata, List.take_left' hp2, beUint16_putUint16BE _ (Nat.mod_lt _ (by omega))]
  refine ⟨hdlen, ?_, ?_⟩
  · rw [hbe, hdlen]
    have : (f.payload.length + 17) % 65536 < 65536 := Nat.mod_lt _ (by omega)
    omega
  · intro d fr d' hok
    have hLlt : (f.payload.length + 17) % 65536 < 65536 := Nat.mod_lt _ (by omega)
    simp only [FrameDecoder.Decode] at hok
    rw [if_neg (by rw [hdlen]; omega)] at hok
    rw [hbe] at hok
    rw [if_neg (by rw [hdlen]; omega)] at hok
    set L := (f.payload.length + 17) % 65536 with hL
    have hctlen : (((FrameEncoder.Encode ⟨k, c⟩ f).1.drop 2).take L).length = L := by
      rw [hdata, List.drop_left' hp2]
      simp [List.length_take, hct]
      omega
    cases hopen : aeadOpen d.key (nonceOf ((d.counter + 1) % U64))
        (((FrameEncoder.Encode ⟨k, c⟩ f).1.drop 2).take L) with
    | none => rw [hopen] at hok; cases hok
    | some pt =>
      rw [hopen] at hok
      have hptlen := aeadOpen_length hopen
      rw [hctlen] at hptlen
      cases pt with
      | nil => cases hok
      | cons t rest =>
        cases hok
        intro hcontra
        have h1 : rest.length = L - 16 - 1 := by
          have := hptlen.1
          simp at this
          omega
        have h2 : rest.length = f.payload.length := by
          simpa using congrArg List.length hcontra
        omega

theorem encode_oversize_silently_breaks_witness :
    beUint16 ((FrameEncoder.Encode ⟨[], 0⟩ ⟨1, List.replicate 65519 0⟩).1.take 2)
      ≠ (FrameEncoder.Encode ⟨[], 0⟩ ⟨1, List.replicate 65519 0⟩).1.length - 2 :=
  (encode_oversize_silently_breaks [] 0 ⟨1, List.replicate 65519 0⟩
    (by have h : (Frame.mk 1 (List.replicate 65519 0)).payload.length = 65519 :=
          List.length_replicate 65519 0
        omega)).2.1

instance {ε α : Type} [DecidableEq ε] [DecidableEq α] : DecidableEq (Except ε α) :=
  fun a b =>
  match a, b with
  | .ok x, .ok y =>
    if h : x = y then isTrue (by rw [h]) else isFalse (by intro hc; cases hc; exact h rfl)
  | .error x, .error y =>
    if h : x = y then isTrue (by rw [h]) else isFalse (by intro hc; cases hc; exact h rfl)
  | .ok _, .error _ => isFalse (by intro hc; cases hc)
  | .error _, .ok _ => isFalse (by intro hc; cases hc)

/-- Model of `AddPadding` from the morphing engine: if the data already
reaches the target size, truncate to the target; otherwise append
padding bytes (random in the source, supplied here as the oracle
`padBytes`) up to the target size. -/
def AddPadding (data : List Nat) (targetSize : Nat) (padBytes : List Nat) : List Nat :=
  if targetSize ≤ data.length then data.take targetSize
  else data ++ padBytes.take (targetSize - data.length)

/-- Model of the payload stream emitted by `WriteFrameWithMorphing`.
Each (recursive) call samples one target size from the profile; the
sampled sizes are supplied as the oracle list `targets`, consumed one
per call.  A payload larger than the sampled target is split: the first
`target` bytes are emitted as a frame and the remainder is processed
recursively; otherwise the payload is padded to the target with
`AddPadding` and emitted as the final frame. -/
def morphPayloads : List Nat → List Nat → List Nat → List (List Nat)
  | [], payload, _ => [payload]
  | t :: ts, payload, padBytes =>
    if t < payload.length then payload.take t :: morphPayloads ts (payload.drop t) padBytes
    else [AddPadding payload t padBytes]

/-- The padding bytes that `WriteFrameWithMorphing` appends to the final
chunk: empty while splitting continues, and the `AddPadding` suffix on
the final call. -/
def morphPadSuffix : List Nat → List Nat → List Nat → List Nat
  | [], _, _ => []
  | t :: ts, payload, padBytes =>
    if t < payload.length then morphPadSuffix ts (payload.drop t) padBytes
    else padBytes.take (t - payload.length)

lemma morphPayloads_flatten (targets : List Nat) :
    ∀ payload padBytes : List Nat,
    (morphPayloads targets payload padBytes).flatten
      = payload ++ morphPadSuffix targets payload padBytes := by
  induction targets with
  | nil => intro payload padBytes; simp [morphPayloads, morphPadSuffix]
  | cons t ts ih =>
    intro payload padBytes
    by_cases h : t < payload.length
    · rw [morphPayloads, morphPadSuffix, if_pos h, if_pos h]
      simp only [List.flatten_cons, ih]
      rw [← List.append_assoc, List.take_append_drop]
    · rw [morphPayloads, morphPadSuffix, if_neg h, if_neg h, AddPadding]
      by_cases h2 : t ≤ payload.length
      · have hlen : payload.length = t := by omega
        rw [if_pos h2]
        simp [← hlen, List.take_length]
      · rw [if_neg h2]
        simp

/-- Claim C2 (amended): the concatenation of the payloads emitted by
`WriteFrameWithMorphing` equals the original payload followed by the
random padding that `AddPadding` appended to the final chunk; in
particular the delivered bytes equal the original payload exactly when
no padding was added, i.e. when the final chunk exactly filled its
sampled target size.  End-to-end bytes are therefore preserved only in
that case, not in general. -/
theorem morphing_concat_padding (targets payload padBytes : List Nat) :
    (morphPayloads targets payload padBytes).flatten
      = payload ++ morphPadSuffix targets payload padBytes ∧
    ((morphPayloads targets payload padBytes).flatten = payload
      ↔ morphPadSuffix targets payload padBytes = []) := by
  refine ⟨morphPayloads_flatten targets payload padBytes, ?_⟩
  rw [morphPayloads_flatten targets payload padBytes]
  constructor
  · intro h
    have := congrArg List.length h
    simp at this
    exact this
  · intro h; rw [h, List.append_nil]

/-- Claim C2 counterexample: a 1500-byte payload morphed with sampled
zoom-profile target sizes 700, 700, 500 (each below the payload size, so
the frame is split) is emitted as chunks of 700, 700 and a final chunk of
100 bytes padded to 500 with random bytes; the concatenation of the
emitted payloads is 1900 bytes long and is not the original payload. -/
theorem morphing_concat_counterexample :
    (morphPayloads [700, 700, 500] (List.replicate 1500 0) (List.replicate 400 1)).flatten
      ≠ List.replicate 1500 0 := by
  intro h
  have hlen := congrArg List.length h
  rw [morphPayloads_flatten] at hlen
  have hsuffix : morphPadSuffix [700, 700, 500] (List.replicate 1500 0) (List.replicate 400 1)
      = List.replicate 400 1 := by
    rw [morphPadSuffix, if_pos (by rw [List.length_replicate]; omega), List.drop_replicate]
    rw [morphPadSuffix, if_pos (by rw [List.length_replicate]; omega), List.drop_replicate]
    rw [morphPadSuffix, if_neg (by rw [List.length_replicate]; omega)]
    rw [List.take_replicate, List.length_replicate]
    norm_num
  rw [hsuffix] at hlen
  simp only [List.length_append, List.length_replicate] at hlen
  omega

/-- The Reflex protocol magic number 0x5246584C. -/
def ReflexMagic : Nat := 0x5246584C

/-- Interpretation of a 64-bit unsigned value as a Go `int64`
(two's complement). -/
def toInt64 (n : Nat) : Int :=
  if n < 9223372036854775808 then (n : Int) else (n : Int) - 18446744073709551616

/-- Wrapping of an unbounded integer into `int64` range, modelling Go's
two's-complement `int64` arithmetic. -/
def wrap64 (x : Int) : Int :=
  (x + 9223372036854775808) % 18446744073709551616 - 9223372036854775808

/-- The client's initial handshake record. -/
structure ClientHandshake where
  publicKey : List Nat
  userID : List Nat
  timestamp : Int
  nonce : List Nat
deriving DecidableEq, Repr

/-- The server's handshake response record. -/
structure ServerHandshake where
  publicKey : List Nat
  timestamp : Int
deriving DecidableEq, Repr

/-- Model of `DecodeClientHandshake`: require at least 76 bytes, check
the big-endian magic in the first four bytes, then read the fixed-layout
fields (public key, user id, big-endian `int64` timestamp, nonce). -/
def DecodeClientHandshake (data : List Nat) : Except String ClientHandshake :=
  if data.length < 76 then .error "handshake packet too short"
  else if beUint32 (data.take 4) ≠ ReflexMagic then .error "invalid magic number"
  else .ok { publicKey := (data.drop 4).take 32
           , userID := (data.drop 36).take 16
           , timestamp := toInt64 (beUint64 ((data.drop 52).take 8))
           , nonce := (data.drop 60).take 16 }

/-- Model of `DecodeServerHandshake`: require at least 40 bytes (no magic
check), then read the public key and the big-endian `int64` timestamp. -/
def DecodeServerHandshake (data : List Nat) : Except String ServerHandshake :=
  if data.length < 40 then .error "handshake response too short"
  else .ok { publicKey := data.take 32
           , timestamp := toInt64 (beUint64 ((data.drop 32).take 8)) }

/-- Model of `ValidateTimestamp`: compute `diff := now - timestamp` in
`int64` arithmetic (wrapping), negate it when negative (also wrapping, as
Go negation of `int64` does), and accept when the result is at most 120.
`now` (the value of `time.Now().Unix()` at the call) is passed as an
explicit argument. -/
def ValidateTimestamp (now timestamp : Int) : Bool :=
  let diff := wrap64 (now - timestamp)
  let diff2 := if diff < 0 then wrap64 (-diff) else diff
  decide (diff2 ≤ 120)

/-- Claim C6 (code bug): `ValidateTimestamp` is documented to accept
exactly the timestamps within 120 seconds of `now`, and it does behave
that way at the ±120/±121 boundaries; but when `now - ts` equals `-2^63`
after `int64` wrapping — concretely `ts = now - 2^63`, a timestamp 2^63
seconds in the past — the `int64` negation of the difference overflows
back to a negative value and the guard `diff <= 120` accepts it, so the
code accepts a timestamp far outside the documented window. -/
theorem validateTimestamp_wrap_bug :
    ValidateTimestamp 1700000000 (1700000000 - 120) = true ∧
    ValidateTimestamp 1700000000 (1700000000 + 120) = true ∧
    ValidateTimestamp 1700000000 (1700000000 - 121) = false ∧
    ValidateTimestamp 1700000000 (1700000000 + 121) = false ∧
    ValidateTimestamp 1700000000 (1700000000 - 9223372036854775808) = true ∧
    ¬((1700000000 - (1700000000 - 9223372036854775808) : Int).natAbs ≤ 120) := by
  refine ⟨by decide, by decide, by decide, by decide, by decide, by decide⟩

/-- Claim C8: `DecodeClientHandshake` fails with the packet-too-short
error on every input shorter than 76 bytes, and with the invalid-magic
error on every input of at least 76 bytes whose first four big-endian
bytes are not 0x5246584C; `DecodeServerHandshake` fails with its
too-short error on every input shorter than 40 bytes. -/
theorem handshake_decode_errors (d : List Nat) :
    (d.length < 76 → DecodeClientHandshake d = .error "handshake packet too short") ∧
    (76 ≤ d.length → beUint32 (d.take 4) ≠ ReflexMagic →
      DecodeClientHandshake d = .error "invalid magic number") ∧
    (d.length < 40 → DecodeServerHandshake d = .error "handshake response too short") := by
  refine ⟨fun h => by rw [DecodeClientHandshake, if_pos h],
          fun h1 h2 => by rw [DecodeClientHandshake, if_neg (by omega), if_pos h2],
          fun h => by rw [DecodeServerHandshake, if_pos h]⟩

theorem handshake_decode_errors_witness :
    DecodeClientHandshake [] = .error "handshake packet too short" ∧
    DecodeClientHandshake (List.replicate 76 0) = .error "invalid magic number" ∧
    DecodeServerHandshake [] = .error "handshake response too short" :=
  ⟨(handshake_decode_errors []).1 (by decide),
   (handshake_decode_errors (List.replicate 76 0)).2.1 (by decide) (by decide),
   (handshake_decode_errors []).2.2 (by decide)⟩

/-- A user record as the validator sees it: the 16-byte account id and
the email string. -/
structure MemoryUser where
  id : List Nat
  email : String
deriving DecidableEq, Repr

/-- The validator's user map, modelled as an association list from the
16-byte id (the key Go derives from the account) to the user record; the
key of each entry is the user's own id. -/
abbrev ValidatorUsers := List MemoryUser

/-- Model of `Validator.Add`: store the user under its 16-byte id,
overwriting any previous entry with the same id (Go map assignment). -/
def Validator.Add (users : ValidatorUsers) (u : MemoryUser) : ValidatorUsers :=
  u :: users.filter (fun w => w.id ≠ u.id)

/-- Model of `Validator.Get`: look the id up in the map; a distinct
"user not found" error when absent. -/
def Validator.Get : ValidatorUsers → List Nat → Except String MemoryUser
  | [], _ => .error "user not found"
  | u :: rest, userID => if u.id = userID then .ok u else Validator.Get rest userID

/-- Model of `Validator.Remove`: scan the map, delete the first entry
whose email matches and report success; "user not found" when no entry
matches, leaving the map unchanged. -/
def Validator.Remove : ValidatorUsers → String → Except String ValidatorUsers
  | [], _ => .error "user not found"
  | u :: rest, email =>
    if u.email = email then .ok rest
    else (Validator.Remove rest email).map (fun v => u :: v)

lemma Validator.Get_Add (users : ValidatorUsers) (u : MemoryUser) :
    Validator.Get (Validator.Add users u) u.id = .ok u := by
  rw [Validator.Add, Validator.Get, if_pos rfl]

lemma Validator.Get_filter_ne (users : ValidatorUsers) (i : List Nat) :
    Validator.Get (users.filter (fun w => w.id ≠ i)) i = .error "user not found" := by
  induction users with
  | nil => rfl
  | cons w rest ih =>
    by_cases h : w.id = i
    · simp only [List.filter_cons]
      rw [if_neg (by simp [h])]
      exact ih
    · simp only [List.filter_cons]
      rw [if_pos (by simp [h])]
      rw [Validator.Get, if_neg h]
      exact ih

/-- Claim C9: after `Add(u)` succeeds, `Get(u.id)` returns `u` (so its
email is `u.email`); adding twice with the same id overwrites, last
write wins; after `Remove(u.email)` succeeds on a validator whose other
entries do not reuse `u.email` (emails are unique by the data-model
invariant), `Get(u.id)` reports "user not found"; and `Remove` of an
email held by no user reports "user not found", leaving the map
unchanged (the error path returns no new map). -/
theorem validator_consistency (users : ValidatorUsers) (u : MemoryUser) :
    Validator.Get (Validator.Add users u) u.id = .ok u ∧
    (∀ u' : MemoryUser, u'.id = u.id →
      Validator.Get (Validator.Add (Validator.Add users u') u) u.id = .ok u) ∧
    ((∀ w ∈ users, w.email = u.email → w.id = u.id) →
      ∀ users', Validator.Remove (Validator.Add users u) u.email = .ok users' →
        Validator.Get users' u.id = .error "user not found") ∧
    ((∀ w ∈ users, w.email ≠ u.email) →
      Validator.Remove users u.email = .error "user not found") := by
  refine ⟨Validator.Get_Add users u,
          fun u' _ => Validator.Get_Add (Validator.Add users u') u,
          ?_, ?_⟩
  · intro _ users' hrem
    rw [Validator.Add, Validator.Remove, if_pos rfl] at hrem
    cases hrem
    exact Validator.Get_filter_ne users u.id
  · intro hnone
    induction users with
    | nil => rfl
    | cons w rest ih =>
      rw [Validator.Remove, if_neg (hnone w (by simp))]
      rw [ih (fun x hx => hnone x (by simp [hx]))]
      rfl

theorem validator_consistency_witness :
    Validator.Get (Validator.Add [] ⟨List.replicate 16 1, "a@x"⟩)
      (List.replicate 16 1) = .ok ⟨List.replicate 16 1, "a@x"⟩ ∧
    Validator.Get (Validator.Add (Validator.Add [] ⟨List.replicate 16 1, "b@x"⟩)
      ⟨List.replicate 16 1, "a@x"⟩) (List.replicate 16 1)
      = .ok ⟨List.replicate 16 1, "a@x"⟩ ∧
    Validator.Get [] (List.replicate 16 1) = .error "user not found" ∧
    Validator.Remove [] "a@x" = .error "user not found" :=
  ⟨(validator_consistency [] ⟨List.replicate 16 1, "a@x"⟩).1,
   (validator_consistency [] ⟨List.replicate 16 1, "a@x"⟩).2.1
     ⟨List.replicate 16 1, "b@x"⟩ rfl,
   (validator_consistency [] ⟨List.replicate 16 1, "a@x"⟩).2.2.1
     (by intro w hw; cases hw) []
     (by rfl),
   (validator_consistency [] ⟨List.replicate 16 1, "a@x"⟩).2.2.2
     (by intro w hw; cases hw)⟩

/-- Outcome of the handshake phase of the inbound handler, up to the
point where a session is established: close the connection with an
error, hand the connection to the fallback demultiplexer, or proceed
with the decoded handshake. -/
inductive InboundOutcome where
  | errClose (msg : String)
  | fallbackRoute
  | proceed (hs : ClientHandshake)
deriving DecidableEq, Repr

/-- Model of the handshake phase of `Handler.handleReflexHandshake`:
decode the 76-byte client handshake (failure closes with an error),
validate the timestamp (failure closes with an error), and look the
user id up in the validator — an unknown user hands the connection to
the fallback demultiplexer instead of producing a Reflex error; a known
user proceeds to key agreement. -/
def handleReflexHandshake (handshakeData : List Nat) (now : Int)
    (users : ValidatorUsers) : InboundOutcome :=
  match DecodeClientHandshake handshakeData with
  | .error _ => .errClose "invalid handshake"
  | .ok clientHS =>
    if ValidateTimestamp now clientHS.timestamp = false then .errClose "invalid timestamp"
    else
      match Validator.Get users clientHS.userID with
      | .error _ => .fallbackRoute
      | .ok _ => .proceed clientHS

/-- Claim C3: when the 76-byte client handshake decodes successfully and
the timestamp validates but the user id is not in the validator, the
inbound handler hands the connection to the fallback demultiplexer (no
Reflex error response); when the timestamp fails validation it instead
closes the connection with an error. -/
theorem inbound_unknown_user_falls_back (data : List Nat) (now : Int)
    (users : ValidatorUsers) (hs : ClientHandshake)
    (hdec : DecodeClientHandshake data = .ok hs) :
    (ValidateTimestamp now hs.timestamp = true →
      Validator.Get users hs.userID = .error "user not found" →
      handleReflexHandshake data now users = .fallbackRoute) ∧
    (ValidateTimestamp now hs.timestamp = false →
      handleReflexHandshake data now users = .errClose "invalid timestamp") := by
  constructor
  · intro hts huser
    simp [handleReflexHandshake, hdec, hts, huser]
  · intro hts
    simp [handleReflexHandshake, hdec, hts]

/-- A 76-byte client handshake: magic, all-zero public key, user id of
sixteen 7 bytes, timestamp 100, nonce of sixteen 9 bytes. -/
def sampleHandshakeBytes : List Nat :=
  [82, 70, 88, 76] ++ List.replicate 32 0 ++ List.replicate 16 7 ++
  [0, 0, 0, 0, 0, 0, 0, 100] ++ List.replicate 16 9

theorem inbound_unknown_user_falls_back_witness :
    handleReflexHandshake sampleHandshakeBytes 100 [] = .fallbackRoute ∧
    handleReflexHandshake sampleHandshakeBytes 221 [] = .errClose "invalid timestamp" :=
  ⟨(inbound_unknown_user_falls_back sampleHandshakeBytes 100 []
      ⟨List.replicate 32 0, List.replicate 16 7, 100, List.replicate 16 9⟩
      (by decide)).1 (by decide) (by decide),
   (inbound_unknown_user_falls_back sampleHandshakeBytes 221 []
      ⟨List.replicate 32 0, List.replicate 16 7, 100, List.replicate 16 9⟩
      (by decide)).2 (by decide)⟩

/-- Address carried in a request header. -/
inductive RequestAddress where
  | ipv4 (addr : List Nat)
  | domainName (name : List Nat)
  | ipv6 (addr : List Nat)
deriving DecidableEq, Repr

/-- A parsed request header: command byte, big-endian port, and the
optional address (the parser leaves the address empty for payloads of
fewer than 7 bytes). -/
structure RequestHeader where
  command : Nat
  port : Nat
  address : Option RequestAddress
deriving DecidableEq, Repr

/-- Model of `parseRequestHeader`: command byte, big-endian port from
bytes 1–2, then the address by type byte 3 (1 = 4-byte IPv4, 3 = 1-byte
length plus domain, 4 = 16-byte IPv6); payloads shorter than 7 bytes
keep no address. -/
def parseRequestHeader (payload : List Nat) : Except String RequestHeader :=
  if payload.length < 4 then .error "payload too short"
  else
    let command := payload.getD 0 0
    let port := beUint16 ((payload.drop 1).take 2)
    if 7 ≤ payload.length then
      match payload.getD 3 0 with
      | 1 =>
        if payload.length < 8 then .error "invalid IPv4 address"
        else .ok ⟨command, port, some (.ipv4 ((payload.drop 4).take 4))⟩
      | 3 =>
        if payload.length < 5 then .error "invalid domain address"
        else
          let domainLen := payload.getD 4 0
          if payload.length < 5 + domainLen then .error "incomplete domain address"
          else .ok ⟨command, port, some (.domainName ((payload.drop 5).take domainLen))⟩
      | 4 =>
        if payload.length < 20 then .error "invalid IPv6 address"
        else .ok ⟨command, port, some (.ipv6 ((payload.drop 4).take 16))⟩
      | _ => .error "unknown address type"
    else .ok ⟨command, port, none⟩

/-- Size of the wire request header for each address type: command(1) +
port(2) + addr_type(1) + address — 8 bytes for IPv4, 20 for IPv6, 5 plus
the domain length for a domain. -/
def requestHeaderSize : RequestAddress → Nat
  | .ipv4 _ => 8
  | .domainName d => 5 + d.length
  | .ipv6 _ => 20

/-- Model of the first-frame relay step in the inbound handler's
`requestDone`: the code always skips a fixed 12-byte header and relays
the rest, and relays nothing when the payload is not longer than 12
bytes. -/
def requestDoneInitialRelay (payload : List Nat) : List Nat :=
  if 12 < payload.length then payload.drop 12 else []

/-- Claim C7 (code bug): for an accepted IPv4 first frame, the bytes
after the 8-byte request header should be relayed in full, but the code
skips a fixed 12 bytes: on the payload
command 1, port 80, IPv4 10.0.0.1, followed by 8 bytes of user data
65..72, the parser consumes 8 header bytes, yet the relay emits only the
last 4 user bytes, silently dropping bytes 65..68. -/
theorem firstFrame_relay_fixed_offset_bug :
    parseRequestHeader [1, 0, 80, 1, 10, 0, 0, 1, 65, 66, 67, 68, 69, 70, 71, 72]
      = .ok ⟨1, 80, some (.ipv4 [10, 0, 0, 1])⟩ ∧
    requestHeaderSize (.ipv4 [10, 0, 0, 1]) = 8 ∧
    List.drop 8 [1, 0, 80, 1, 10, 0, 0, 1, 65, 66, 67, 68, 69, 70, 71, 72]
      = [65, 66, 67, 68, 69, 70, 71, 72] ∧
    requestDoneInitialRelay [1, 0, 80, 1, 10, 0, 0, 1, 65, 66, 67, 68, 69, 70, 71, 72]
      = [69, 70, 71, 72] ∧
    requestDoneInitialRelay [1, 0, 80, 1, 10, 0, 0, 1, 65, 66, 67, 68, 69, 70, 71, 72]
      ≠ List.drop 8 [1, 0, 80, 1, 10, 0, 0, 1, 65, 66, 67, 68, 69, 70, 71, 72] := by
  refine ⟨by decide, by decide, by decide, by decide, by decide⟩


/-- The fallback table: the three-level nested map
`name -> alpn -> path -> dest` the handler builds from its config,
modelled as nested partial maps; the innermost value is the fallback
destination. -/
abbrev FBTable := String → Option (String → Option (String → Option String))

/-- The control-flow idiom the fallback lookup repeats: if the first
lookup found an entry, return it, otherwise run the next lookup. -/
def orTry (x y : Option String) : Option String :=
  match x with
  | some fb => some fb
  | none => y

/-- Path level of `Handler.findFallback`: inside one alpn submap, try
the exact path, then the empty path. -/
def tryPathLevel (pfb : String → Option String) (path : String) : Option String :=
  orTry (pfb path) (pfb "")

/-- One alpn-submap lookup inside a name submap: nothing when the alpn
key is absent, otherwise the path-level search in its submap. -/
def alpnLookup (apfb : String → Option (String → Option String)) (alpn path : String) :
    Option String :=
  match apfb alpn with
  | some pfb => tryPathLevel pfb path
  | none => none

/-- Alpn level of `Handler.findFallback`: inside one name submap, try
the exact alpn submap, then the empty-alpn submap. -/
def tryAlpnLevel (apfb : String → Option (String → Option String)) (alpn path : String) :
    Option String :=
  orTry (alpnLookup apfb alpn path) (alpnLookup apfb "" path)

/-- One name-submap lookup in the table: nothing when the name key is
absent, otherwise the alpn-level search in its submap. -/
def nameLookup (t : FBTable) (name alpn path : String) : Option String :=
  match t name with
  | some apfb => tryAlpnLevel apfb alpn path
  | none => none

/-- Model of `Handler.findFallback`: search the exact-name submap, then
fall through to the empty-name submap. -/
def findFallback (t : FBTable) (name alpn path : String) : Option String :=
  orTry (nameLookup t name alpn path) (nameLookup t "" alpn path)

/-- What `handleFallback` does with the lookup result: forward to the
found destination, or reject (close) the connection. -/
inductive FallbackDecision where
  | forward (dest : String)
  | rejectConn
deriving DecidableEq, Repr

/-- Model of the selection logic in `Handler.handleFallback`: look up
`(name, alpn, path)`; when that yields nothing, try the default triple
`("", "", "")` as a last resort; reject the connection when that also
yields nothing. -/
def handleFallbackDecision (t : FBTable) (name alpn path : String) : FallbackDecision :=
  match orTry (findFallback t name alpn path) (findFallback t "" "" "") with
  | some fb => .forward fb
  | none => .rejectConn

/-- A single exact lookup of the triple `(name, alpn, path)` in the
nested table. -/
def lookup3 (t : FBTable) (name alpn path : String) : Option String :=
  match t name with
  | none => none
  | some apfb =>
    match apfb alpn with
    | none => none
    | some pfb => pfb path

/-- Lookup order as the specification states it: exact name before empty
name; within each, exact alpn before empty alpn; within each, exact path
before empty path; the first entry found wins. -/
def findFallbackOrdered (t : FBTable) (name alpn path : String) : Option String :=
  (lookup3 t name alpn path).or ((lookup3 t name alpn "").or
    ((lookup3 t name "" path).or ((lookup3 t name "" "").or
    ((lookup3 t "" alpn path).or ((lookup3 t "" alpn "").or
    ((lookup3 t "" "" path).or (lookup3 t "" "" "")))))))

lemma orTry_eq_or (x y : Option String) : orTry x y = x.or y := by
  cases x <;> rfl

/-- A single exact lookup of `(alpn, path)` inside one name submap. -/
def lookup2 (apfb : String → Option (String → Option String)) (alpn path : String) :
    Option String :=
  match apfb alpn with
  | none => none
  | some pfb => pfb path

lemma alpnLookup_or (apfb : String → Option (String → Option String))
    (alpn path : String) :
    alpnLookup apfb alpn path = (lookup2 apfb alpn path).or (lookup2 apfb alpn "") := by
  cases h : apfb alpn <;>
    simp [alpnLookup, lookup2, h, tryPathLevel, orTry_eq_or]

lemma nameLookup_or (t : FBTable) (name alpn path : String) :
    nameLookup t name alpn path =
      (lookup3 t name alpn path).or ((lookup3 t name alpn "").or
        ((lookup3 t name "" path).or (lookup3 t name "" ""))) := by
  cases h : t name with
  | none => simp [nameLookup, lookup3, h]
  | some apfb =>
    have l32 : ∀ a p, lookup3 t name a p = lookup2 apfb a p := by
      intro a p; simp [lookup3, lookup2, h]
    rw [nameLookup]
    simp only [h, tryAlpnLevel, orTry_eq_or, alpnLookup_or, l32, Option.or_assoc]

lemma findFallback_eq_ordered (t : FBTable) (name alpn path : String) :
    findFallback t name alpn path = findFallbackOrdered t name alpn path := by
  rw [findFallback, orTry_eq_or, nameLookup_or, nameLookup_or, findFallbackOrdered]
  simp only [Option.or_assoc]

/-- Claim C5: the fallback lookup tries exact name then empty name;
within each, exact alpn then empty alpn; within each, exact path then
empty path, returning the first entry found in that left-to-right
order; and the handler, when the lookup finds nothing, tries the
default triple `("", "", "")` as a last resort before rejecting the
connection. -/
theorem fallback_lookup_order (t : FBTable) (name alpn path : String) :
    findFallback t name alpn path = findFallbackOrdered t name alpn path ∧
    handleFallbackDecision t name alpn path =
      (match (findFallbackOrdered t name alpn path).or
          (findFallbackOrdered t "" "" "") with
       | some fb => FallbackDecision.forward fb
       | none => FallbackDecision.rejectConn) := by
  refine ⟨findFallback_eq_ordered t name alpn path, ?_⟩
  rw [handleFallbackDecision, orTry_eq_or,
      findFallback_eq_ordered t name alpn path, findFallback_eq_ordered t "" "" ""]

end Reflex
